import Mathlib

/-!
Verification of the declarative reconciliation engine of the
linode.cloud Ansible collection (plugins/modules).  Each section embeds
one reconciliation routine from the Python source as executable Lean
definitions, then proves or refutes the specified properties.
-/

namespace Spec2Proof

/-! ### Grants (user.py)

`ResourceGrant` mirrors one entry of a list-valued resource category of
the `/account/users/{username}/grants` document: a resource id plus an
optional permission string (`None` in Python is `Option.none` here).
-/

structure ResourceGrant where
  id : Nat
  permissions : Option String
deriving DecidableEq

/-- A grants document: the `global` sub-object (modelled as a key/value
map, empty map = falsy `{}` in Python) plus the list-valued resource
categories in document order. -/
structure GrantsDoc where
  globalGrants : List (String × Bool)
  categories : List (String × List ResourceGrant)
deriving DecidableEq

/-- Lookup in `new_grant_map[key]` (user.py `_merge_grants`): the map is
built by iterating the desired category in order and assigning
`new_grant_map[key][grant["id"]] = grant`, so on a duplicated id the LAST
desired grant overwrites the earlier ones (Python dict assignment). -/
def findGrant (grants : List ResourceGrant) (i : Nat) : Option ResourceGrant :=
  grants.foldl (fun acc g => if g.id == i then some g else acc) none

def lookupCategory (cats : List (String × List ResourceGrant)) (k : String) :
    Option (List ResourceGrant) :=
  (cats.find? (fun p => p.1 == k)).map (fun p => p.2)

/-- One category of `_merge_grants`' output loop (user.py): every grant of
the old (remote) category is kept, taking the desired grant verbatim when
its id is mentioned in the desired input for the category and revoking the
permission (`None`) otherwise. -/
def mergeCategory (desired : Option (List ResourceGrant))
    (old : List ResourceGrant) : List ResourceGrant :=
  old.map (fun g =>
    match desired with
    | some ds =>
      match findGrant ds g.id with
      | some d => d
      | none => { id := g.id, permissions := none }
    | none => { id := g.id, permissions := none })

/-- `UserModule._merge_grants` (user.py): result starts with
`global = param_grants["global"]` when that sub-object is truthy (non-empty)
and `{}` otherwise; every list-valued category of `old_grants` is rebuilt
via `mergeCategory` against the desired grants for the same key. -/
def merge_grants (old param : GrantsDoc) : GrantsDoc :=
  { globalGrants := if param.globalGrants.isEmpty then [] else param.globalGrants,
    categories := old.categories.map
      (fun p => (p.1, mergeCategory (lookupCategory param.categories p.1) p.2)) }

/-- `UserModule._compare_grants` (user.py): normalize the old document by
keeping `global` and, for each list-valued category, only the grants whose
permission is not `None`, dropping the category entirely when nothing
remains; then compare with the desired document. -/
def compare_grants (old new : GrantsDoc) : Bool :=
  let normalized : GrantsDoc :=
    { globalGrants := old.globalGrants,
      categories := (old.categories.map
          (fun p => (p.1, p.2.filter (fun g => !g.permissions.isNone)))).filter
        (fun p => !p.2.isEmpty) }
  new == normalized

/-- Parameters of the user module relevant to `_update_grants`: the
(optional) `grants` parameter and the (optional) `restricted` flag. -/
structure UserParams where
  grants : Option GrantsDoc
  restricted : Option Bool

/-- Effects of `_update_grants`: the PUT bodies sent to the grants
endpoint and the recorded action descriptions. -/
structure GrantsUpdateEffect where
  puts : List GrantsDoc
  actions : List String
deriving DecidableEq

/-- `UserModule._update_grants` (user.py): returns immediately - issuing
no PUT and recording no action - when the `grants` parameter is absent
(`None`) or `restricted` is not true; otherwise it short-circuits when
`_compare_grants` already holds, and else PUTs the merged document and
records one action. -/
def update_grants (params : UserParams) (rawGrants : GrantsDoc) :
    GrantsUpdateEffect :=
  match params.grants with
  | none => { puts := [], actions := [] }
  | some g =>
    if params.restricted ≠ some true then { puts := [], actions := [] }
    else if compare_grants rawGrants g then { puts := [], actions := [] }
    else
      { puts := [merge_grants rawGrants g], actions := ["Updated grants"] }

end Spec2Proof

namespace Spec2Proof

theorem findGrant_aux_some_id :
    ∀ (ds : List ResourceGrant) (acc : Option ResourceGrant) (i : Nat)
      (d : ResourceGrant), (∀ d0, acc = some d0 → d0.id = i) →
      ds.foldl (fun acc g => if g.id == i then some g else acc) acc
        = some d → d.id = i
  | [], acc, i, d, hacc, hfold => hacc d hfold
  | g :: t, acc, i, d, hacc, hfold => by
    refine findGrant_aux_some_id t _ i d ?_ hfold
    intro d0 hd0
    simp only [] at hd0
    by_cases hg : (g.id == i) = true
    · rw [if_pos hg] at hd0
      rw [← Option.some.inj hd0]
      simpa using hg
    · rw [if_neg hg] at hd0
      exact hacc d0 hd0

theorem findGrant_some_id (ds : List ResourceGrant) (i : Nat)
    (d : ResourceGrant) (h : findGrant ds i = some d) : d.id = i :=
  findGrant_aux_some_id ds none i d (fun d0 hd0 => by cases hd0) h

/-- C3: in the merged document, a resource grant whose id is mentioned in
the desired input for its category is exactly the desired grant (the last
desired grant with that id, per the dict build), and one whose id is not
mentioned has its permission revoked to `none`. -/
theorem merge_grants_complete_truth (old param : GrantsDoc) (k : String)
    (cat : List ResourceGrant) (g : ResourceGrant)
    (hk : (k, cat) ∈ (merge_grants old param).categories) (hg : g ∈ cat) :
    (∀ ds d, lookupCategory param.categories k = some ds →
      findGrant ds g.id = some d → g = d) ∧
    ((∀ ds, lookupCategory param.categories k = some ds →
      findGrant ds g.id = none) → g.permissions = none) := by
  simp only [merge_grants, List.mem_map] at hk
  obtain ⟨p, hmem, heq⟩ := hk
  have hk0 : p.1 = k := congrArg Prod.fst heq
  have hcat : mergeCategory (lookupCategory param.categories p.1) p.2 = cat :=
    congrArg Prod.snd heq
  subst hk0
  rw [← hcat] at hg
  constructor
  · intro ds d hds hd
    simp only [mergeCategory, hds, List.mem_map] at hg
    obtain ⟨g0, hg0mem, hg0⟩ := hg
    rcases hfind : findGrant ds g0.id with _ | d0
    · rw [hfind] at hg0
      subst hg0
      have hd2 : findGrant ds g0.id = some d := hd
      rw [hfind] at hd2
      exact absurd hd2 (by simp)
    · rw [hfind] at hg0
      subst hg0
      have hidm : d0.id = g0.id := findGrant_some_id ds g0.id d0 hfind
      have hd2 : findGrant ds g0.id = some d := hidm ▸ hd
      rw [hfind] at hd2
      exact Option.some.inj hd2
  · intro hnone
    rcases hds : lookupCategory param.categories p.1 with _ | ds
    · simp only [mergeCategory, hds, List.mem_map] at hg
      obtain ⟨g0, hg0mem, hg0⟩ := hg
      subst hg0
      rfl
    · simp only [mergeCategory, hds, List.mem_map] at hg
      obtain ⟨g0, hg0mem, hg0⟩ := hg
      have hno := hnone ds hds
      rcases hfind : findGrant ds g0.id with _ | d0
      · rw [hfind] at hg0
        subst hg0
        rfl
      · rw [hfind] at hg0
        subst hg0
        have hidm : d0.id = g0.id := findGrant_some_id ds g0.id d0 hfind
        rw [hidm, hfind] at hno
        exact absurd hno (by simp)

/-- C3 witness: remote grants A read_write, B read_only merged with desired
grants mentioning only A yield A read_write, B none, and the theorem's
conclusions hold at that input. -/
theorem merge_grants_complete_truth_witness :
    ((merge_grants
        { globalGrants := [],
          categories := [("linode", [⟨1, some "read_write"⟩, ⟨2, some "read_only"⟩])] }
        { globalGrants := [],
          categories := [("linode", [⟨1, some "read_write"⟩])] }).categories
      = [("linode", [⟨1, some "read_write"⟩, ⟨2, none⟩])]) ∧
    (("linode", [⟨1, some "read_write"⟩, ⟨2, (none : Option String)⟩]) ∈
        (merge_grants
          { globalGrants := [],
            categories := [("linode", [⟨1, some "read_write"⟩, ⟨2, some "read_only"⟩])] }
          { globalGrants := [],
            categories := [("linode", [⟨1, some "read_write"⟩])] }).categories) ∧
    ((⟨2, none⟩ : ResourceGrant) ∈
        [(⟨1, some "read_write"⟩ : ResourceGrant), ⟨2, none⟩]) ∧
    ((⟨2, (none : Option String)⟩ : ResourceGrant).permissions = none) := by
  refine ⟨by decide, by decide, by decide, ?_⟩
  exact (merge_grants_complete_truth
    { globalGrants := [],
      categories := [("linode", [⟨1, some "read_write"⟩, ⟨2, some "read_only"⟩])] }
    { globalGrants := [],
      categories := [("linode", [⟨1, some "read_write"⟩])] }
    "linode" [⟨1, some "read_write"⟩, ⟨2, none⟩] ⟨2, none⟩
    (by decide) (by decide)).2 (by decide)

/-- C10: with `restricted` set to false, or with no `grants` parameter
supplied, `_update_grants` issues no PUT to the grants endpoint and records
no action, even when `grants` specifies grants. -/
theorem update_grants_noop_when_unrestricted (params : UserParams)
    (raw : GrantsDoc)
    (h : params.restricted = some false ∨ params.grants = none) :
    update_grants params raw = { puts := [], actions := [] } := by
  rcases hg : params.grants with _ | g
  · simp [update_grants, hg]
  · rcases h with h | h
    · simp [update_grants, hg, h]
    · rw [hg] at h
      exact absurd h (by simp)

/-- C10 witness: a run with `restricted = false` and a non-trivial grants
parameter issues no PUT and records no action. -/
theorem update_grants_noop_when_unrestricted_witness :
    update_grants
      { grants := some { globalGrants := [("add_linodes", true)],
                         categories := [("linode", [⟨1, some "read_write"⟩])] },
        restricted := some false }
      { globalGrants := [], categories := [] }
      = { puts := [], actions := [] } :=
  update_grants_noop_when_unrestricted _ _ (Or.inl rfl)

/-! ### NodeBalancer configs (nodebalancer.py)

A config document is a map from field names to scalar values.  Desired
config parameters may leave fields unset (`Option.none` models Python
`None`, removed by `filter_null_values`); the remote document
(`_raw_json`) is fully populated.
-/

inductive FieldVal where
  | nat (n : Nat)
  | str (s : String)
  | boolean (b : Bool)
deriving DecidableEq

abbrev Fields := List (String × FieldVal)

/-- A remote NodeBalancer config: server-assigned id plus its raw
document. -/
structure RemoteConfig where
  id : Nat
  fields : Fields
deriving DecidableEq

/-- Desired parameters for one config entry: the caller-supplied field
values (`none` = unset) and the `recreate` flag.  The `nodes` sub-list is
handled separately by `_handle_config_nodes` and never consulted by the
matching phase, so it is not part of this record. -/
structure NBConfigParams where
  fields : List (String × Option FieldVal)
  recreate : Bool
deriving DecidableEq

/-- Modelled from the spec: `filter_null_values` (module_utils
linode_helper, not under src) drops the keys whose value is `None`. -/
def filterNull (d : List (String × Option FieldVal)) : Fields :=
  d.filterMap (fun p => p.2.map (fun v => (p.1, v)))

/-- Modelled from the spec: `dict_select_matching` (module_utils
linode_helper, not under src) restricts both documents to their shared
keys; the reconcilers then compare the two restrictions for equality -
"structural equality restricted to the subset of fields the caller
actually specified, ignoring fields the caller omitted".  `cfgMatches`
is that comparison: every key the desired document shares with the
remote document must carry an equal value. -/
def cfgMatches (desired : Fields) (remote : Fields) : Bool :=
  desired.all (fun p =>
    match remote.find? (fun q => q.1 == p.1) with
    | some q => q.2 == p.2
    | none => true)

/-- The two fields `_check_config_exists` (nodebalancer.py) pops before
diffing, because the API redacts them. -/
def eraseSSLFields (d : List (String × Option FieldVal)) :
    List (String × Option FieldVal) :=
  d.filter (fun p => p.1 ≠ "ssl_cert" && p.1 ≠ "ssl_key")

/-- The desired document actually used for matching: ssl fields popped,
then null values filtered. -/
def matchDoc (c : NBConfigParams) : Fields :=
  filterNull (eraseSSLFields c.fields)

/-- `NodeBalancerModule._check_config_exists` (nodebalancer.py): scan the
candidate pool for the first remote config agreeing with the desired
entry on all shared non-ssl keys.  (Python iterates a `set`; the pool is
modelled as a list, fixing one iteration order.)  Returns the match, or
`none` for the Python `(False, None)` result. -/
def checkConfigExists (target : List RemoteConfig) (c : NBConfigParams) :
    Option RemoteConfig :=
  target.find? (fun rc => cfgMatches (matchDoc c) rc.fields)

inductive NBDecisionKind where
  | created
  | recreated (r : Nat)
  | updated (r : Nat)
  | deleted (r : Nat)
deriving DecidableEq

/-- The matching loop of `_handle_configs` (nodebalancer.py): walk the
desired entries in order; an entry with no match is a create; a matched
entry with `recreate` set is a create whose match is left in the delete
pool (`to_delete` is never updated in that branch); a matched entry
without `recreate` is an in-place update and its match is removed from
the pool (`to_delete.remove` mutates the same set the candidates are
drawn from).  Returns the per-entry decisions in input order together
with the remaining pool (`to_delete`). -/
def classifyConfigs :
    List NBConfigParams → List RemoteConfig →
      List NBDecisionKind × List RemoteConfig
  | [], pool => ([], pool)
  | c :: rest, pool =>
    match checkConfigExists pool c with
    | none =>
      let res := classifyConfigs rest pool
      (.created :: res.1, res.2)
    | some r =>
      if c.recreate then
        let res := classifyConfigs rest pool
        (.recreated r.id :: res.1, res.2)
      else
        let res := classifyConfigs rest (pool.erase r)
        (.updated r.id :: res.1, res.2)

/-- Decisions of a full `_handle_configs` run: the per-entry decisions
plus one delete decision per remote config left in `to_delete`. -/
def nbDecisions (entries : List NBConfigParams) (pool : List RemoteConfig) :
    List NBDecisionKind :=
  (classifyConfigs entries pool).1
    ++ (classifyConfigs entries pool).2.map (fun r => .deleted r.id)

inductive NBOp where
  | deleteConfig (r : Nat)
  | createConfig
  | updateConfig (r : Nat)
deriving DecidableEq

def nbCreateOp : NBDecisionKind → Option NBOp
  | .created => some .createConfig
  | .recreated _ => some .createConfig
  | _ => none

def nbUpdateOp : NBDecisionKind → Option NBOp
  | .updated r => some (.updateConfig r)
  | _ => none

/-- The application phase of `_handle_configs` (nodebalancer.py), in
source order: first every config remaining in `to_delete` is deleted,
then every entry of `to_create` is created, then every entry of
`to_update` is updated in place (node reconciliation). -/
def handleConfigsOps (entries : List NBConfigParams)
    (pool : List RemoteConfig) : List NBOp :=
  let res := classifyConfigs entries pool
  res.2.map (fun r => .deleteConfig r.id)
    ++ res.1.filterMap nbCreateOp ++ res.1.filterMap nbUpdateOp

/-- The non-ssl content of a desired config entry: everything the
matching phase and the later node reconciliation may read. -/
def stripSSL (c : NBConfigParams) : NBConfigParams :=
  { fields := eraseSSLFields c.fields, recreate := c.recreate }

end Spec2Proof

namespace Spec2Proof

theorem matchDoc_stripSSL (c : NBConfigParams) :
    matchDoc (stripSSL c) = matchDoc c := by
  simp [matchDoc, stripSSL, eraseSSLFields, List.filter_filter]

theorem checkConfigExists_stripSSL (pool : List RemoteConfig)
    (c1 c2 : NBConfigParams) (h : stripSSL c1 = stripSSL c2) :
    checkConfigExists pool c1 = checkConfigExists pool c2 := by
  unfold checkConfigExists
  rw [← matchDoc_stripSSL c1, ← matchDoc_stripSSL c2, h]

theorem classifyConfigs_stripSSL :
    ∀ (l1 l2 : List NBConfigParams) (pool : List RemoteConfig),
      l1.map stripSSL = l2.map stripSSL →
      classifyConfigs l1 pool = classifyConfigs l2 pool
  | [], [], _, _ => rfl
  | [], _ :: _, _, h => by simp at h
  | _ :: _, [], _, h => by simp at h
  | c1 :: r1, c2 :: r2, pool, h => by
    simp only [List.map_cons, List.cons.injEq] at h
    obtain ⟨hc, hr⟩ := h
    have hrec : c1.recreate = c2.recreate := by
      have h2 := hc
      simp only [stripSSL, NBConfigParams.mk.injEq] at h2
      exact h2.2
    unfold classifyConfigs
    rw [checkConfigExists_stripSSL pool c1 c2 hc]
    rcases checkConfigExists pool c2 with _ | r
    · simp only []
      rw [classifyConfigs_stripSSL r1 r2 pool hr]
    · simp only []
      rw [hrec]
      by_cases hflag : c2.recreate = true
      · rw [if_pos hflag, if_pos hflag, classifyConfigs_stripSSL r1 r2 pool hr]
      · rw [if_neg hflag, if_neg hflag,
          classifyConfigs_stripSSL r1 r2 (pool.erase r) hr]

/-- C9: two desired config entries differing only in `ssl_cert`/`ssl_key`
get the same result from the existence check against any candidate pool,
and two desired lists differing only in those fields produce identical
decisions and identical remaining delete pools, hence identical
create/update/delete operations. -/
theorem nb_ssl_fields_immaterial (pool : List RemoteConfig)
    (c1 c2 : NBConfigParams) (l1 l2 : List NBConfigParams)
    (hc : stripSSL c1 = stripSSL c2) (hl : l1.map stripSSL = l2.map stripSSL) :
    checkConfigExists pool c1 = checkConfigExists pool c2 ∧
    classifyConfigs l1 pool = classifyConfigs l2 pool ∧
    handleConfigsOps l1 pool = handleConfigsOps l2 pool := by
  refine ⟨checkConfigExists_stripSSL pool c1 c2 hc, ?_, ?_⟩
  · exact classifyConfigs_stripSSL l1 l2 pool hl
  · unfold handleConfigsOps
    rw [classifyConfigs_stripSSL l1 l2 pool hl]

/-- C9 witness: two configs differing only in `ssl_cert` behave
identically against a concrete pool. -/
theorem nb_ssl_fields_immaterial_witness :
    stripSSL { fields := [("port", some (.nat 80)), ("ssl_cert", some (.str "certA"))],
               recreate := false }
      = stripSSL { fields := [("port", some (.nat 80)), ("ssl_cert", some (.str "certB"))],
                   recreate := false } ∧
    checkConfigExists [⟨7, [("port", .nat 80)]⟩]
        { fields := [("port", some (.nat 80)), ("ssl_cert", some (.str "certA"))],
          recreate := false }
      = checkConfigExists [⟨7, [("port", .nat 80)]⟩]
        { fields := [("port", some (.nat 80)), ("ssl_cert", some (.str "certB"))],
          recreate := false } := by
  refine ⟨by decide, ?_⟩
  exact (nb_ssl_fields_immaterial [⟨7, [("port", .nat 80)]⟩] _ _ [] []
    (by decide) (by decide)).1

/-! Application-order of `_handle_configs` (claim C2). -/

def nbOpRank : NBOp → Nat
  | .deleteConfig _ => 0
  | .createConfig => 1
  | .updateConfig _ => 2

theorem nbCreateOp_rank (d : NBDecisionKind) (x : NBOp)
    (h : nbCreateOp d = some x) : nbOpRank x = 1 := by
  cases d <;>
    first
    | (simp [nbCreateOp] at h; subst h; rfl)
    | simp [nbCreateOp] at h

theorem nbUpdateOp_rank (d : NBDecisionKind) (x : NBOp)
    (h : nbUpdateOp d = some x) : nbOpRank x = 2 := by
  cases d <;>
    first
    | (simp [nbUpdateOp] at h; subst h; rfl)
    | simp [nbUpdateOp] at h

/-- C2 (amended): in every `_handle_configs` run the operations are
emitted in the phase order of the source: all deletes (replaced and
never-matched alike) first, then all creates, then all in-place updates -
the operation ranks are monotone along the emitted list. -/
theorem nb_ops_phase_order (entries : List NBConfigParams)
    (pool : List RemoteConfig) :
    (handleConfigsOps entries pool).Pairwise
      (fun a b => nbOpRank a ≤ nbOpRank b) := by
  have hdel : ∀ x ∈ (classifyConfigs entries pool).2.map
      (fun r => NBOp.deleteConfig r.id), nbOpRank x = 0 := by
    intro x hx
    obtain ⟨r, _, hr⟩ := List.mem_map.1 hx
    rw [← hr]
    rfl
  have hcr : ∀ x ∈ (classifyConfigs entries pool).1.filterMap nbCreateOp,
      nbOpRank x = 1 := by
    intro x hx
    obtain ⟨d, _, hd⟩ := List.mem_filterMap.1 hx
    exact nbCreateOp_rank d x hd
  have hup : ∀ x ∈ (classifyConfigs entries pool).1.filterMap nbUpdateOp,
      nbOpRank x = 2 := by
    intro x hx
    obtain ⟨d, _, hd⟩ := List.mem_filterMap.1 hx
    exact nbUpdateOp_rank d x hd
  show (((classifyConfigs entries pool).2.map (fun r => NBOp.deleteConfig r.id)
      ++ (classifyConfigs entries pool).1.filterMap nbCreateOp)
      ++ (classifyConfigs entries pool).1.filterMap nbUpdateOp).Pairwise _
  refine List.pairwise_append.2 ⟨List.pairwise_append.2 ⟨?_, ?_, ?_⟩, ?_, ?_⟩
  · exact List.pairwise_of_forall_mem_list
      (fun a ha b hb => by rw [hdel a ha, hdel b hb])
  · exact List.pairwise_of_forall_mem_list
      (fun a ha b hb => by rw [hcr a ha, hcr b hb])
  · intro a ha b hb
    rw [hdel a ha, hcr b hb]
    exact Nat.zero_le 1
  · exact List.pairwise_of_forall_mem_list
      (fun a ha b hb => by rw [hup a ha, hup b hb])
  · intro a ha b hb
    rcases List.mem_append.1 ha with h | h
    · rw [hdel a h, hup b hb]
      exact Nat.zero_le 2
    · rw [hcr a h, hup b hb]
      exact Nat.le_succ 1

/-- C2 counterexample: with one desired entry matching nothing and one
remote config never matched, the code deletes the never-matched remote
config before issuing the create - the claim says never-matched deletes
are applied last, after the creates. -/
theorem nb_unmatched_delete_before_create_cex :
    checkConfigExists [⟨1, [("port", .nat 80)]⟩]
        ⟨[("port", some (.nat 443))], false⟩ = none ∧
    handleConfigsOps [⟨[("port", some (.nat 443))], false⟩]
        [⟨1, [("port", .nat 80)]⟩]
      = [.deleteConfig 1, .createConfig] ∧
    (handleConfigsOps [⟨[("port", some (.nat 443))], false⟩]
        [⟨1, [("port", .nat 80)]⟩]).indexOf (.deleteConfig 1)
      < (handleConfigsOps [⟨[("port", some (.nat 443))], false⟩]
        [⟨1, [("port", .nat 80)]⟩]).indexOf .createConfig := by
  decide

/-! Order-independence of the matching decisions (claim C5). -/

def matchesCfg (c : NBConfigParams) (r : RemoteConfig) : Bool :=
  cfgMatches (matchDoc c) r.fields

/-- The decision a desired entry would receive against a fixed candidate
pool, in isolation. -/
def decOf (pool : List RemoteConfig) (c : NBConfigParams) : NBDecisionKind :=
  match checkConfigExists pool c with
  | none => .created
  | some r => if c.recreate then .recreated r.id else .updated r.id

/-- The remote config an entry removes from the candidate pool (only the
update branch removes its match). -/
def matchTaken (pool : List RemoteConfig) (c : NBConfigParams) :
    Option RemoteConfig :=
  match checkConfigExists pool c with
  | none => none
  | some r => if c.recreate then none else some r

def removeAll (pool : List RemoteConfig) (rs : List RemoteConfig) :
    List RemoteConfig :=
  rs.foldl List.erase pool

/-- No remote config in the pool is matched by two distinct desired
entries of the list. -/
abbrev DisjointMatches (l : List NBConfigParams)
    (pool : List RemoteConfig) : Prop :=
  l.Pairwise (fun c c' => ∀ r ∈ pool,
    ¬(matchesCfg c r = true ∧ matchesCfg c' r = true))

theorem find?_erase_not_matching {α : Type} [DecidableEq α]
    (p : α → Bool) (a : α) (l : List α) (h : p a = false) :
    (l.erase a).find? p = l.find? p := by
  induction l with
  | nil => rfl
  | cons b t ih =>
    by_cases hba : b = a
    · subst hba
      rw [List.erase_cons_head, List.find?_cons, h]
    · rw [List.erase_cons, if_neg (by simpa using hba), List.find?_cons,
        List.find?_cons]
      cases hpb : p b
      · exact ih
      · rfl

theorem removeAll_perm (rs rs' : List RemoteConfig) (h : rs.Perm rs') :
    ∀ pool, removeAll pool rs = removeAll pool rs' := by
  induction h with
  | nil => intro pool; rfl
  | cons x _ ih => intro pool; exact ih (pool.erase x)
  | swap x y t =>
    intro pool
    show removeAll ((pool.erase y).erase x) t
      = removeAll ((pool.erase x).erase y) t
    rw [List.erase_comm]
  | trans _ _ ih1 ih2 => intro pool; rw [ih1 pool, ih2 pool]

theorem checkConfigExists_erase (pool : List RemoteConfig)
    (c : NBConfigParams) (r : RemoteConfig) (h : matchesCfg c r = false) :
    checkConfigExists (pool.erase r) c = checkConfigExists pool c :=
  find?_erase_not_matching _ r pool h

theorem decOf_erase (pool : List RemoteConfig) (c : NBConfigParams)
    (r : RemoteConfig) (h : matchesCfg c r = false) :
    decOf (pool.erase r) c = decOf pool c := by
  unfold decOf
  rw [checkConfigExists_erase pool c r h]

theorem matchTaken_erase (pool : List RemoteConfig) (c : NBConfigParams)
    (r : RemoteConfig) (h : matchesCfg c r = false) :
    matchTaken (pool.erase r) c = matchTaken pool c := by
  unfold matchTaken
  rw [checkConfigExists_erase pool c r h]

/-- Under pairwise-disjoint matches the greedy matching loop degenerates
to an independent per-entry decision: each entry receives the decision it
would get against the full pool, and the remaining delete pool is the
full pool minus the matches taken. -/
theorem classifyConfigs_nf :
    ∀ (l : List NBConfigParams) (pool : List RemoteConfig),
      DisjointMatches l pool →
      classifyConfigs l pool
        = (l.map (decOf pool), removeAll pool (l.filterMap (matchTaken pool)))
  | [], pool, _ => rfl
  | c :: rest, pool, hd => by
    obtain ⟨hhead, htail⟩ := List.pairwise_cons.1 hd
    unfold classifyConfigs
    rcases mc : checkConfigExists pool c with _ | r
    · simp only []
      rw [classifyConfigs_nf rest pool htail]
      have hdec : decOf pool c = .created := by unfold decOf; rw [mc]
      have htak : matchTaken pool c = none := by unfold matchTaken; rw [mc]
      simp [hdec, htak, List.filterMap_cons]
    · simp only []
      by_cases hflag : c.recreate = true
      · rw [if_pos hflag, classifyConfigs_nf rest pool htail]
        have hdec : decOf pool c = .recreated r.id := by
          simp [decOf, mc, hflag]
        have htak : matchTaken pool c = none := by
          simp [matchTaken, mc, hflag]
        simp [hdec, htak, List.filterMap_cons]
      · rw [if_neg hflag]
        have hcr : matchesCfg c r = true := List.find?_some mc
        have hrest : ∀ c2 ∈ rest, matchesCfg c2 r = false := by
          intro c2 hc2
          have hn := hhead c2 hc2 r (List.mem_of_find?_eq_some mc)
          cases hm2 : matchesCfg c2 r
          · rfl
          · exact absurd ⟨hcr, hm2⟩ hn
        have htail2 : DisjointMatches rest (pool.erase r) :=
          htail.imp (fun h r2 hr2 => h r2 (List.mem_of_mem_erase hr2))
        rw [classifyConfigs_nf rest (pool.erase r) htail2]
        have hdec : decOf pool c = .updated r.id := by
          simp [decOf, mc, hflag]
        have htak : matchTaken pool c = some r := by
          simp [matchTaken, mc, hflag]
        have hmapeq : rest.map (decOf (pool.erase r)) = rest.map (decOf pool) :=
          List.map_congr_left (fun c2 hc2 => decOf_erase pool c2 r (hrest c2 hc2))
        have hfmeq : rest.filterMap (matchTaken (pool.erase r))
            = rest.filterMap (matchTaken pool) :=
          List.filterMap_congr
            (fun c2 hc2 => matchTaken_erase pool c2 r (hrest c2 hc2))
        rw [hmapeq, hfmeq]
        simp only [hdec, htak, List.map_cons, List.filterMap_cons]
        rfl

/-- C5 (amended): when additionally no remote config can be matched by
two distinct desired entries, permuting the desired list leaves the
multiset of create/recreate/update/delete decisions unchanged. -/
theorem nb_decisions_perm_invariant (l l2 : List NBConfigParams)
    (pool : List RemoteConfig) (hperm : l.Perm l2)
    (hdisj : DisjointMatches l pool) :
    (nbDecisions l pool).Perm (nbDecisions l2 pool) := by
  have hdisj2 : DisjointMatches l2 pool :=
    (hperm.pairwise_iff (fun h r hr hand => h r hr ⟨hand.2, hand.1⟩)).1 hdisj
  unfold nbDecisions
  rw [classifyConfigs_nf l pool hdisj, classifyConfigs_nf l2 pool hdisj2]
  have hpool : removeAll pool (l.filterMap (matchTaken pool))
      = removeAll pool (l2.filterMap (matchTaken pool)) :=
    removeAll_perm _ _ (hperm.filterMap _) pool
  exact (hperm.map _).append (by rw [hpool])

/-- C5 witness: two desired entries with disjoint matches keep the same
decision multiset after swapping. -/
theorem nb_decisions_perm_invariant_witness :
    List.Perm
      [(⟨[("port", some (.nat 80))], false⟩ : NBConfigParams),
        ⟨[("port", some (.nat 443))], false⟩]
      [⟨[("port", some (.nat 443))], false⟩,
        ⟨[("port", some (.nat 80))], false⟩] ∧
    DisjointMatches
      [⟨[("port", some (.nat 80))], false⟩,
        ⟨[("port", some (.nat 443))], false⟩]
      [⟨1, [("port", .nat 80)]⟩, ⟨2, [("port", .nat 443)]⟩] ∧
    (nbDecisions
        [⟨[("port", some (.nat 80))], false⟩,
          ⟨[("port", some (.nat 443))], false⟩]
        [⟨1, [("port", .nat 80)]⟩, ⟨2, [("port", .nat 443)]⟩]).Perm
      (nbDecisions
        [⟨[("port", some (.nat 443))], false⟩,
          ⟨[("port", some (.nat 80))], false⟩]
        [⟨1, [("port", .nat 80)]⟩, ⟨2, [("port", .nat 443)]⟩]) := by
  refine ⟨by decide, by decide, ?_⟩
  exact nb_decisions_perm_invariant _ _ _ (by decide) (by decide)

/-- C5 counterexample: two distinct desired entries - distinct matching
keys - where the loose structural key lets both match the same remote
config: swapping them changes even the multiset of decisions (one order
yields update, create, delete; the other two updates). -/
theorem nb_perm_changes_decisions_cex :
    (⟨[("port", some (.nat 80))], false⟩ : NBConfigParams)
      ≠ ⟨[("port", some (.nat 80)), ("protocol", some (.str "http"))], false⟩ ∧
    List.Perm
      [(⟨[("port", some (.nat 80))], false⟩ : NBConfigParams),
        ⟨[("port", some (.nat 80)), ("protocol", some (.str "http"))], false⟩]
      [⟨[("port", some (.nat 80)), ("protocol", some (.str "http"))], false⟩,
        ⟨[("port", some (.nat 80))], false⟩] ∧
    ¬ (nbDecisions
        [⟨[("port", some (.nat 80))], false⟩,
          ⟨[("port", some (.nat 80)), ("protocol", some (.str "http"))], false⟩]
        [⟨1, [("port", .nat 80), ("protocol", .str "http")]⟩,
          ⟨2, [("port", .nat 80), ("protocol", .str "tcp")]⟩]).Perm
      (nbDecisions
        [⟨[("port", some (.nat 80)), ("protocol", some (.str "http"))], false⟩,
          ⟨[("port", some (.nat 80))], false⟩]
        [⟨1, [("port", .nat 80), ("protocol", .str "http")]⟩,
          ⟨2, [("port", .nat 80), ("protocol", .str "tcp")]⟩]) := by
  decide

/-! ### Firewall devices (firewall.py)

`_update_devices` keys remote devices by entity id in `device_map`, walks
the desired device list, and finally deletes every device still in the
map.  Desired and remote devices share the same shape: an entity id and
an entity type.
-/

structure FwDevice where
  id : Nat
  dtype : String
deriving DecidableEq

inductive FwAction where
  | created (i : Nat) (t : String)
  | deleted (i : Nat) (t : String)
deriving DecidableEq

/-- `device_map`, insertion ordered as a Python dict. -/
abbrev DevMap := List (Nat × FwDevice)

def lookupDev (m : DevMap) (i : Nat) : Option FwDevice :=
  (m.find? (fun p => p.1 == i)).map (fun p => p.2)

/-- Python `del device_map[id]`. -/
def delKey (m : DevMap) (i : Nat) : DevMap :=
  m.filter (fun p => p.1 != i)

/-- `device_map[device.entity.id] = device`: overwrite in place when the
key exists, append otherwise. -/
def insertDev (m : DevMap) (d : FwDevice) : DevMap :=
  if (m.find? (fun p => p.1 == d.id)).isSome then
    m.map (fun p => if p.1 == d.id then (d.id, d) else p)
  else m ++ [(d.id, d)]

def buildDevMap (remote : List FwDevice) : DevMap :=
  remote.foldl insertDev []

/-- The desired-device loop plus the final unmatched sweep of
`FirewallModule._update_devices` (firewall.py): a desired device whose id
is mapped to a remote device of equal type is kept and removed from the
map; on a type mismatch the remote device is deleted and the desired one
created, but the entry is NOT removed from the map (the source has no
`del` in that branch); an unmapped desired id is created.  Every device
still in the map afterwards is deleted. -/
def updateDevicesAux : List FwDevice → DevMap → List FwAction
  | [], m => m.map (fun p => .deleted p.2.id p.2.dtype)
  | d :: rest, m =>
    match lookupDev m d.id with
    | some dev =>
      if dev.dtype == d.dtype then updateDevicesAux rest (delKey m d.id)
      else .deleted dev.id dev.dtype :: .created d.id d.dtype ::
        updateDevicesAux rest m
    | none => .created d.id d.dtype :: updateDevicesAux rest m

def updateDevices (spec remote : List FwDevice) : List FwAction :=
  updateDevicesAux spec (buildDevMap remote)

def keysNodup (m : DevMap) : Prop := (m.map Prod.fst).Nodup

def goodVals (m : DevMap) : Prop := ∀ p ∈ m, p.2.id = p.1

end Spec2Proof

namespace Spec2Proof

theorem find?_key_eq_none (m : DevMap) (i : Nat)
    (h : i ∉ m.map Prod.fst) : m.find? (fun p => p.1 == i) = none := by
  rw [List.find?_eq_none]
  intro p hp
  simp only [beq_iff_eq]
  intro hpi
  exact h (List.mem_map.2 ⟨p, hp, hpi⟩)

theorem find?_of_mem_keyed (m : DevMap) (k : Nat) (v : FwDevice)
    (hnd : keysNodup m) (hmem : (k, v) ∈ m) :
    m.find? (fun p => p.1 == k) = some (k, v) := by
  induction m with
  | nil => cases hmem
  | cons p t ih =>
    rcases List.mem_cons.1 hmem with h | h
    · subst h
      rw [List.find?_cons]
      simp
    · have hk : k ∈ t.map Prod.fst := List.mem_map.2 ⟨(k, v), h, rfl⟩
      have hne : p.1 ≠ k := by
        intro hpk
        exact (List.nodup_cons.1 hnd).1 (hpk ▸ hk)
      rw [List.find?_cons]
      have : (p.1 == k) = false := by simpa using hne
      rw [this]
      exact ih (List.nodup_cons.1 hnd).2 h

theorem keysNodup_delKey (m : DevMap) (i : Nat) (h : keysNodup m) :
    keysNodup (delKey m i) :=
  List.Nodup.sublist ((List.filter_sublist m).map Prod.fst) h

theorem goodVals_delKey (m : DevMap) (i : Nat) (h : goodVals m) :
    goodVals (delKey m i) :=
  fun p hp => h p (List.mem_of_mem_filter hp)

theorem mem_delKey (m : DevMap) (i k : Nat) (v : FwDevice)
    (hmem : (k, v) ∈ m) (hne : k ≠ i) : (k, v) ∈ delKey m i :=
  List.mem_filter.2 ⟨hmem, by simpa using hne⟩

theorem not_key_delKey (m : DevMap) (i : Nat) :
    i ∉ (delKey m i).map Prod.fst := by
  intro h
  obtain ⟨p, hp, hpi⟩ := List.mem_map.1 h
  have := (List.mem_filter.1 hp).2
  rw [hpi] at this
  simp at this

theorem not_key_delKey_of_not (m : DevMap) (i j : Nat)
    (h : j ∉ m.map Prod.fst) : j ∉ (delKey m i).map Prod.fst := by
  intro hj
  obtain ⟨p, hp, hpi⟩ := List.mem_map.1 hj
  exact h (List.mem_map.2 ⟨p, List.mem_of_mem_filter hp, hpi⟩)

/-- A device id absent from the map is never the subject of a delete
action. -/
theorem count_deleted_zero :
    ∀ (spec : List FwDevice) (m : DevMap) (i : Nat) (ty : String),
      i ∉ m.map Prod.fst → goodVals m →
      (updateDevicesAux spec m).count (.deleted i ty) = 0
  | [], m, i, ty, hk, hv => by
    rw [List.count_eq_zero]
    intro hmem
    obtain ⟨p, hp, hptr⟩ := List.mem_map.1 hmem
    have h1 : p.2.id = i := by
      have := congrArg (fun a => match a with
        | FwAction.deleted j _ => j
        | FwAction.created j _ => j) hptr
      simpa using this
    exact hk (List.mem_map.2 ⟨p, hp, (hv p hp) ▸ h1⟩)
  | d :: rest, m, i, ty, hk, hv => by
    unfold updateDevicesAux
    split
    · rename_i dev hl
      obtain ⟨p, hfind⟩ : ∃ p, m.find? (fun q => q.1 == d.id) = some p := by
        unfold lookupDev at hl
        rcases hf : m.find? (fun q => q.1 == d.id) with _ | p
        · rw [hf] at hl; cases hl
        · exact ⟨p, hf⟩
      have hpm : p ∈ m := List.mem_of_find?_eq_some hfind
      have hpk : p.1 = d.id := by simpa using List.find?_some hfind
      have hdev : dev = p.2 := by
        unfold lookupDev at hl
        rw [hfind] at hl
        exact (Option.some.inj hl).symm
      have hdevid : dev.id = d.id := by rw [hdev, hv p hpm, hpk]
      have hdne : d.id ≠ i := by
        intro hdi
        exact hk (List.mem_map.2 ⟨p, hpm, hpk.trans hdi⟩)
      split
      · exact count_deleted_zero rest (delKey m d.id) i ty
          (not_key_delKey_of_not m d.id i hk) (goodVals_delKey m d.id hv)
      · simp only [List.count_cons]
        rw [count_deleted_zero rest m i ty hk hv]
        have h1 : (FwAction.created d.id d.dtype == FwAction.deleted i ty) = false := by
          simp
        have h2 : (FwAction.deleted dev.id dev.dtype == FwAction.deleted i ty) = false := by
          simp only [beq_eq_false_iff_ne, ne_eq, FwAction.deleted.injEq, not_and]
          intro hdi
          exact absurd (hdevid ▸ hdi) hdne
        rw [h1, h2]
        simp
    · rename_i hl
      simp only [List.count_cons]
      rw [count_deleted_zero rest m i ty hk hv]
      simp

/-- The final sweep deletes a mapped device exactly once. -/
theorem count_sweep_one :
    ∀ (m : DevMap) (dev : FwDevice), keysNodup m → goodVals m →
      (dev.id, dev) ∈ m →
      (m.map (fun p => FwAction.deleted p.2.id p.2.dtype)).count
        (.deleted dev.id dev.dtype) = 1
  | [], dev, _, _, hmem => by cases hmem
  | p :: t, dev, hnd, hv, hmem => by
    by_cases hpk : p.1 = dev.id
    · have hpd : p = (dev.id, dev) := by
        rcases List.mem_cons.1 hmem with h | h
        · exact h.symm
        · exact absurd (hpk ▸ List.mem_map.2 ⟨(dev.id, dev), h, rfl⟩)
            (List.nodup_cons.1 hnd).1
      subst hpd
      simp only [List.map_cons, List.count_cons]
      have hz := count_deleted_zero [] t dev.id dev.dtype
        (by simpa using (List.nodup_cons.1 hnd).1)
        (fun q hq => hv q (List.mem_cons_of_mem _ hq))
      unfold updateDevicesAux at hz
      rw [hz]
      simp
    · have hmt : (dev.id, dev) ∈ t := by
        rcases List.mem_cons.1 hmem with h | h
        · exact absurd (congrArg Prod.fst h.symm) hpk
        · exact h
      simp only [List.map_cons, List.count_cons]
      rw [count_sweep_one t dev (List.nodup_cons.1 hnd).2
        (fun q hq => hv q (List.mem_cons_of_mem _ hq)) hmt]
      have hne : (FwAction.deleted p.2.id p.2.dtype
          == FwAction.deleted dev.id dev.dtype) = false := by
        simp only [beq_eq_false_iff_ne, ne_eq, FwAction.deleted.injEq, not_and]
        intro hpi
        exact absurd ((hv p (List.mem_cons_self p t)) ▸ hpi) hpk
      rw [hne]
      simp

/-- A mapped device whose id never occurs in the desired list is deleted
exactly once (the final unmatched sweep). -/
theorem count_deleted_one :
    ∀ (spec : List FwDevice) (m : DevMap) (dev : FwDevice),
      keysNodup m → goodVals m → (dev.id, dev) ∈ m →
      (∀ d ∈ spec, d.id ≠ dev.id) →
      (updateDevicesAux spec m).count (.deleted dev.id dev.dtype) = 1
  | [], m, dev, hnd, hv, hmem, _ => count_sweep_one m dev hnd hv hmem
  | d :: rest, m, dev, hnd, hv, hmem, hns => by
    have hdne : d.id ≠ dev.id := hns d (List.mem_cons_self d rest)
    have hrest : ∀ q ∈ rest, q.id ≠ dev.id :=
      fun q hq => hns q (List.mem_cons_of_mem _ hq)
    unfold updateDevicesAux
    split
    · rename_i dev0 hl
      obtain ⟨p, hfind⟩ : ∃ p, m.find? (fun q => q.1 == d.id) = some p := by
        unfold lookupDev at hl
        rcases hf : m.find? (fun q => q.1 == d.id) with _ | p
        · rw [hf] at hl; cases hl
        · exact ⟨p, hf⟩
      have hpm : p ∈ m := List.mem_of_find?_eq_some hfind
      have hpk : p.1 = d.id := by simpa using List.find?_some hfind
      have hdev0 : dev0 = p.2 := by
        unfold lookupDev at hl
        rw [hfind] at hl
        exact (Option.some.inj hl).symm
      have hdev0id : dev0.id = d.id := by rw [hdev0, hv p hpm, hpk]
      split
      · exact count_deleted_one rest (delKey m d.id) dev
          (keysNodup_delKey m d.id hnd) (goodVals_delKey m d.id hv)
          (mem_delKey m d.id dev.id dev hmem (fun h => hdne h.symm)) hrest
      · simp only [List.count_cons]
        rw [count_deleted_one rest m dev hnd hv hmem hrest]
        have h1 : (FwAction.created d.id d.dtype
            == FwAction.deleted dev.id dev.dtype) = false := by simp
        have h2 : (FwAction.deleted dev0.id dev0.dtype
            == FwAction.deleted dev.id dev.dtype) = false := by
          simp only [beq_eq_false_iff_ne, ne_eq, FwAction.deleted.injEq, not_and]
          intro hdi
          exact absurd (hdev0id ▸ hdi) hdne
        rw [h1, h2]
        simp
    · simp only [List.count_cons]
      rw [count_deleted_one rest m dev hnd hv hmem hrest]
      simp

/-- A mapped device matched by a desired entry of equal type is removed
from the map and never deleted. -/
theorem count_deleted_matched_keep :
    ∀ (spec : List FwDevice) (m : DevMap) (dev : FwDevice),
      (spec.map FwDevice.id).Nodup → keysNodup m → goodVals m →
      (dev.id, dev) ∈ m →
      (∃ d ∈ spec, d.id = dev.id ∧ d.dtype = dev.dtype) →
      (updateDevicesAux spec m).count (.deleted dev.id dev.dtype) = 0
  | [], _, _, _, _, _, _, hex => by
    obtain ⟨d, hd, _⟩ := hex
    cases hd
  | d :: rest, m, dev, hsnd, hnd, hv, hmem, hex => by
    by_cases hdid : d.id = dev.id
    · have hdty : d.dtype = dev.dtype := by
        obtain ⟨q, hq, hqid, hqty⟩ := hex
        rcases List.mem_cons.1 hq with h | h
        · exact h ▸ hqty
        · have : d.id ∈ rest.map FwDevice.id :=
            hdid ▸ hqid ▸ List.mem_map.2 ⟨q, h, rfl⟩
          exact absurd this (List.nodup_cons.1 hsnd).1
      have hlook : lookupDev m d.id = some dev := by
        unfold lookupDev
        rw [hdid, find?_of_mem_keyed m dev.id dev hnd hmem]
        rfl
      unfold updateDevicesAux
      simp only [hlook]
      have htt : (dev.dtype == d.dtype) = true := by simp [hdty]
      rw [if_pos htt]
      have : dev.id ∉ (delKey m d.id).map Prod.fst :=
        hdid ▸ not_key_delKey m d.id
      exact count_deleted_zero rest (delKey m d.id) dev.id dev.dtype this
        (goodVals_delKey m d.id hv)
    · have hex2 : ∃ q ∈ rest, q.id = dev.id ∧ q.dtype = dev.dtype := by
        obtain ⟨q, hq, hqid, hqty⟩ := hex
        rcases List.mem_cons.1 hq with h | h
        · exact absurd (h ▸ hqid) hdid
        · exact ⟨q, h, hqid, hqty⟩
      unfold updateDevicesAux
      split
      · rename_i dev0 hl
        obtain ⟨p, hfind⟩ : ∃ p, m.find? (fun q => q.1 == d.id) = some p := by
          unfold lookupDev at hl
          rcases hf : m.find? (fun q => q.1 == d.id) with _ | p
          · rw [hf] at hl; cases hl
          · exact ⟨p, hf⟩
        have hpm : p ∈ m := List.mem_of_find?_eq_some hfind
        have hpk : p.1 = d.id := by simpa using List.find?_some hfind
        have hdev0 : dev0 = p.2 := by
          unfold lookupDev at hl
          rw [hfind] at hl
          exact (Option.some.inj hl).symm
        have hdev0id : dev0.id = d.id := by rw [hdev0, hv p hpm, hpk]
        split
        · exact count_deleted_matched_keep rest (delKey m d.id) dev
            (List.nodup_cons.1 hsnd).2 (keysNodup_delKey m d.id hnd)
            (goodVals_delKey m d.id hv)
            (mem_delKey m d.id dev.id dev hmem (fun h => hdid h.symm)) hex2
        · simp only [List.count_cons]
          rw [count_deleted_matched_keep rest m dev
            (List.nodup_cons.1 hsnd).2 hnd hv hmem hex2]
          have h1 : (FwAction.created d.id d.dtype
              == FwAction.deleted dev.id dev.dtype) = false := by simp
          have h2 : (FwAction.deleted dev0.id dev0.dtype
              == FwAction.deleted dev.id dev.dtype) = false := by
            simp only [beq_eq_false_iff_ne, ne_eq, FwAction.deleted.injEq,
              not_and]
            intro hdi
            exact absurd (hdev0id ▸ hdi) hdid
          rw [h1, h2]
          simp
      · simp only [List.count_cons]
        rw [count_deleted_matched_keep rest m dev
          (List.nodup_cons.1 hsnd).2 hnd hv hmem hex2]
        simp

/-- A mapped device matched only in the type-mismatch (recreate) branch is
deleted twice: once as the replaced device and once more in the unmatched
sweep, because the source never removes it from `device_map`. -/
theorem count_deleted_matched_recreate :
    ∀ (spec : List FwDevice) (m : DevMap) (dev : FwDevice),
      (spec.map FwDevice.id).Nodup → keysNodup m → goodVals m →
      (dev.id, dev) ∈ m →
      (∃ d ∈ spec, d.id = dev.id ∧ d.dtype ≠ dev.dtype) →
      (updateDevicesAux spec m).count (.deleted dev.id dev.dtype) = 2
  | [], _, _, _, _, _, _, hex => by
    obtain ⟨d, hd, _⟩ := hex
    cases hd
  | d :: rest, m, dev, hsnd, hnd, hv, hmem, hex => by
    by_cases hdid : d.id = dev.id
    · have hdty : d.dtype ≠ dev.dtype := by
        obtain ⟨q, hq, hqid, hqty⟩ := hex
        rcases List.mem_cons.1 hq with h | h
        · exact h ▸ hqty
        · have : d.id ∈ rest.map FwDevice.id :=
            hdid ▸ hqid ▸ List.mem_map.2 ⟨q, h, rfl⟩
          exact absurd this (List.nodup_cons.1 hsnd).1
      have hlook : lookupDev m d.id = some dev := by
        unfold lookupDev
        rw [hdid, find?_of_mem_keyed m dev.id dev hnd hmem]
        rfl
      have hrest : ∀ q ∈ rest, q.id ≠ dev.id := by
        intro q hq hqid
        have : d.id ∈ rest.map FwDevice.id :=
          hdid ▸ hqid ▸ List.mem_map.2 ⟨q, hq, rfl⟩
        exact absurd this (List.nodup_cons.1 hsnd).1
      unfold updateDevicesAux
      simp only [hlook]
      have htf : (dev.dtype == d.dtype) = false := by
        simp only [beq_eq_false_iff_ne, ne_eq]
        exact fun h => hdty h.symm
      rw [if_neg (by simp [htf])]
      simp only [List.count_cons]
      rw [count_deleted_one rest m dev hnd hv hmem hrest]
      simp
    · have hex2 : ∃ q ∈ rest, q.id = dev.id ∧ q.dtype ≠ dev.dtype := by
        obtain ⟨q, hq, hqid, hqty⟩ := hex
        rcases List.mem_cons.1 hq with h | h
        · exact absurd (h ▸ hqid) hdid
        · exact ⟨q, h, hqid, hqty⟩
      unfold updateDevicesAux
      split
      · rename_i dev0 hl
        obtain ⟨p, hfind⟩ : ∃ p, m.find? (fun q => q.1 == d.id) = some p := by
          unfold lookupDev at hl
          rcases hf : m.find? (fun q => q.1 == d.id) with _ | p
          · rw [hf] at hl; cases hl
          · exact ⟨p, hf⟩
        have hpm : p ∈ m := List.mem_of_find?_eq_some hfind
        have hpk : p.1 = d.id := by simpa using List.find?_some hfind
        have hdev0 : dev0 = p.2 := by
          unfold lookupDev at hl
          rw [hfind] at hl
          exact (Option.some.inj hl).symm
        have hdev0id : dev0.id = d.id := by rw [hdev0, hv p hpm, hpk]
        split
        · exact count_deleted_matched_recreate rest (delKey m d.id) dev
            (List.nodup_cons.1 hsnd).2 (keysNodup_delKey m d.id hnd)
            (goodVals_delKey m d.id hv)
            (mem_delKey m d.id dev.id dev hmem (fun h => hdid h.symm)) hex2
        · simp only [List.count_cons]
          rw [count_deleted_matched_recreate rest m dev
            (List.nodup_cons.1 hsnd).2 hnd hv hmem hex2]
          have h1 : (FwAction.created d.id d.dtype
              == FwAction.deleted dev.id dev.dtype) = false := by simp
          have h2 : (FwAction.deleted dev0.id dev0.dtype
              == FwAction.deleted dev.id dev.dtype) = false := by
            simp only [beq_eq_false_iff_ne, ne_eq, FwAction.deleted.injEq,
              not_and]
            intro hdi
            exact absurd (hdev0id ▸ hdi) hdid
          rw [h1, h2]
          simp
      · simp only [List.count_cons]
        rw [count_deleted_matched_recreate rest m dev
          (List.nodup_cons.1 hsnd).2 hnd hv hmem hex2]
        simp

theorem foldl_insertDev :
    ∀ (remote : List FwDevice) (acc : DevMap),
      (∀ d ∈ remote, d.id ∉ acc.map Prod.fst) →
      (remote.map FwDevice.id).Nodup →
      remote.foldl insertDev acc = acc ++ remote.map (fun d => (d.id, d))
  | [], acc, _, _ => by simp
  | d :: rest, acc, hdisj, hnd => by
    have hfn : acc.find? (fun p => p.1 == d.id) = none :=
      find?_key_eq_none acc d.id (hdisj d (List.mem_cons_self d rest))
    have hstep : insertDev acc d = acc ++ [(d.id, d)] := by
      unfold insertDev
      rw [hfn]
      simp
    have hdisj2 : ∀ q ∈ rest, q.id ∉ (acc ++ [(d.id, d)]).map Prod.fst := by
      intro q hq
      rw [List.map_append, List.mem_append]
      rintro (h | h)
      · exact hdisj q (List.mem_cons_of_mem _ hq) h
      · have hqd : q.id = d.id := by simpa using h
        have : d.id ∈ rest.map FwDevice.id :=
          hqd ▸ List.mem_map.2 ⟨q, hq, rfl⟩
        exact absurd this (List.nodup_cons.1 hnd).1
    show List.foldl insertDev (insertDev acc d) rest = _
    rw [hstep, foldl_insertDev rest (acc ++ [(d.id, d)]) hdisj2
      (List.nodup_cons.1 hnd).2]
    simp

theorem buildDevMap_eq (remote : List FwDevice)
    (h : (remote.map FwDevice.id).Nodup) :
    buildDevMap remote = remote.map (fun d => (d.id, d)) := by
  unfold buildDevMap
  rw [foldl_insertDev remote [] (by simp) h]
  simp

/-- C1 (amended): with unique desired ids and unique remote device ids,
`_update_devices` deletes a remote device matched by a desired entry of
equal type zero times (it is removed from the candidate map), deletes a
remote device matched only with a differing type twice (the recreate
branch does not remove it, so the unmatched sweep deletes it again), and
deletes a never-matched remote device exactly once. -/
theorem fw_device_delete_fate (spec remote : List FwDevice)
    (hs : (spec.map FwDevice.id).Nodup)
    (hr : (remote.map FwDevice.id).Nodup)
    (dev : FwDevice) (hdev : dev ∈ remote) :
    ((∃ d ∈ spec, d.id = dev.id ∧ d.dtype = dev.dtype) →
      (updateDevices spec remote).count (.deleted dev.id dev.dtype) = 0) ∧
    ((∃ d ∈ spec, d.id = dev.id ∧ d.dtype ≠ dev.dtype) →
      (updateDevices spec remote).count (.deleted dev.id dev.dtype) = 2) ∧
    ((∀ d ∈ spec, d.id ≠ dev.id) →
      (updateDevices spec remote).count (.deleted dev.id dev.dtype) = 1) := by
  have hbuild := buildDevMap_eq remote hr
  have hnd : keysNodup (buildDevMap remote) := by
    unfold keysNodup
    rw [hbuild, List.map_map]
    simpa using hr
  have hv : goodVals (buildDevMap remote) := by
    intro p hp
    rw [hbuild] at hp
    obtain ⟨q, _, hq⟩ := List.mem_map.1 hp
    rw [← hq]
  have hmem : (dev.id, dev) ∈ buildDevMap remote := by
    rw [hbuild]
    exact List.mem_map.2 ⟨dev, hdev, rfl⟩
  exact ⟨fun hex => count_deleted_matched_keep spec _ dev hs hnd hv hmem hex,
    fun hex => count_deleted_matched_recreate spec _ dev hs hnd hv hmem hex,
    fun hns => count_deleted_one spec _ dev hnd hv hmem hns⟩

/-- C1 amended-theorem witness: concrete desired and remote device lists
exercising all three delete fates. -/
theorem fw_device_delete_fate_witness :
    (([⟨1, "linode"⟩, ⟨2, "nodebalancer"⟩] :
        List FwDevice).map FwDevice.id).Nodup ∧
    (([⟨2, "linode"⟩, ⟨3, "linode"⟩] : List FwDevice).map FwDevice.id).Nodup ∧
    (⟨3, "linode"⟩ : FwDevice) ∈ ([⟨2, "linode"⟩, ⟨3, "linode"⟩] : List FwDevice) ∧
    (∀ d ∈ ([⟨1, "linode"⟩, ⟨2, "nodebalancer"⟩] : List FwDevice),
      d.id ≠ (⟨3, "linode"⟩ : FwDevice).id) ∧
    (updateDevices [⟨1, "linode"⟩, ⟨2, "nodebalancer"⟩]
      [⟨2, "linode"⟩, ⟨3, "linode"⟩]).count (.deleted 3 "linode") = 1 := by
  refine ⟨by decide, by decide, by decide, by decide, ?_⟩
  exact (fw_device_delete_fate [⟨1, "linode"⟩, ⟨2, "nodebalancer"⟩]
    [⟨2, "linode"⟩, ⟨3, "linode"⟩] (by decide) (by decide)
    ⟨3, "linode"⟩ (by decide)).2.2 (by decide)

/-- C1 counterexample: a remote device matched by a desired entry with a
differing type is not removed from the candidate pool - it is deleted
twice (once by the recreate branch, once by the unmatched sweep), so the
claimed at-most-one binding with pool removal fails. -/
theorem fw_matched_device_double_delete_cex :
    updateDevices [⟨1, "linode"⟩] [⟨1, "nodebalancer"⟩]
      = [.deleted 1 "nodebalancer", .created 1 "linode",
        .deleted 1 "nodebalancer"] ∧
    (updateDevices [⟨1, "linode"⟩] [⟨1, "nodebalancer"⟩]).count
      (.deleted 1 "nodebalancer") = 2 ∧
    ¬ (∀ dev ∈ ([⟨1, "nodebalancer"⟩] : List FwDevice),
        (updateDevices [⟨1, "linode"⟩] [⟨1, "nodebalancer"⟩]).count
          (.deleted dev.id dev.dtype) ≤ 1) := by
  decide

/-! ### LKE node pool flat-field reconciliation (lke_node_pool.py)

`_update_pool` stages the changed mutable fields on the pool object one
by one, recording one action per changed field, and issues a single
`pool.save()` only when at least one field changed.  (`handle_updates` is
invoked first with an empty mutable-field set, so it stages nothing and
issues no write.)
-/

abbrev Autoscaler := List (String × Nat)
abbrev Taints := List (String × String)
abbrev PoolLabels := List (String × String)

structure NodePool where
  count : Nat
  autoscaler : Autoscaler
  taints : Taints
  labels : PoolLabels
  k8s_version : String
  update_strategy : String
deriving DecidableEq

/-- Desired parameters after `filter_null_values`: `count` is required,
the rest are present only when supplied by the caller. -/
structure PoolParams where
  count : Nat
  autoscaler : Option Autoscaler
  taints : Option Taints
  labels : Option PoolLabels
  k8s_version : Option String
  update_strategy : Option String
deriving DecidableEq

inductive PoolAction where
  | resized (oldCount newCount : Nat)
  | updatedAutoscaler
  | updatedTaints
  | updatedLabels
  | updatedVersion
  | updatedStrategy
deriving DecidableEq

def stageCount (c : Nat) (s : NodePool × List PoolAction) :
    NodePool × List PoolAction :=
  if s.1.count ≠ c then
    ({ s.1 with count := c }, s.2 ++ [.resized s.1.count c])
  else s

def stageAutoscaler (v : Option Autoscaler) (s : NodePool × List PoolAction) :
    NodePool × List PoolAction :=
  match v with
  | none => s
  | some v =>
    if s.1.autoscaler ≠ v then
      ({ s.1 with autoscaler := v }, s.2 ++ [.updatedAutoscaler])
    else s

def stageTaints (v : Option Taints) (s : NodePool × List PoolAction) :
    NodePool × List PoolAction :=
  match v with
  | none => s
  | some v =>
    if s.1.taints ≠ v then
      ({ s.1 with taints := v }, s.2 ++ [.updatedTaints])
    else s

def stageLabels (v : Option PoolLabels) (s : NodePool × List PoolAction) :
    NodePool × List PoolAction :=
  match v with
  | none => s
  | some v =>
    if s.1.labels ≠ v then
      ({ s.1 with labels := v }, s.2 ++ [.updatedLabels])
    else s

def stageVersion (v : Option String) (s : NodePool × List PoolAction) :
    NodePool × List PoolAction :=
  match v with
  | none => s
  | some v =>
    if s.1.k8s_version ≠ v then
      ({ s.1 with k8s_version := v }, s.2 ++ [.updatedVersion])
    else s

def stageStrategy (v : Option String) (s : NodePool × List PoolAction) :
    NodePool × List PoolAction :=
  match v with
  | none => s
  | some v =>
    if s.1.update_strategy ≠ v then
      ({ s.1 with update_strategy := v }, s.2 ++ [.updatedStrategy])
    else s

/-- The staging chain of `_update_pool`, in source order. -/
def stagePool (params : PoolParams) (pool : NodePool) :
    NodePool × List PoolAction :=
  stageStrategy params.update_strategy
    (stageVersion params.k8s_version
      (stageLabels params.labels
        (stageTaints params.taints
          (stageAutoscaler params.autoscaler
            (stageCount params.count (pool, []))))))

/-- `LKENodePoolModule._update_pool` (lke_node_pool.py): returns the
staged pool, the number of `pool.save()` writes issued (one when anything
changed, zero otherwise) and the recorded actions. -/
def update_pool (params : PoolParams) (pool : NodePool) :
    NodePool × Nat × List PoolAction :=
  let s := stagePool params pool
  (s.1, if s.2.isEmpty then 0 else 1, s.2)

end Spec2Proof

namespace Spec2Proof

theorem stageAutoscaler_frame (v : Option Autoscaler)
    (s : NodePool × List PoolAction) :
    (stageAutoscaler v s).1.count = s.1.count ∧
    (stageAutoscaler v s).1.taints = s.1.taints ∧
    (stageAutoscaler v s).1.labels = s.1.labels ∧
    (stageAutoscaler v s).1.k8s_version = s.1.k8s_version ∧
    (stageAutoscaler v s).1.update_strategy = s.1.update_strategy := by
  rcases v with _ | v
  · simp [stageAutoscaler]
  · simp only [stageAutoscaler]
    by_cases h : s.1.autoscaler ≠ v
    · rw [if_pos h]
      exact ⟨rfl, rfl, rfl, rfl, rfl⟩
    · rw [if_neg h]
      exact ⟨rfl, rfl, rfl, rfl, rfl⟩

theorem stageTaints_frame (v : Option Taints) (s : NodePool × List PoolAction) :
    (stageTaints v s).1.count = s.1.count ∧
    (stageTaints v s).1.autoscaler = s.1.autoscaler ∧
    (stageTaints v s).1.labels = s.1.labels ∧
    (stageTaints v s).1.k8s_version = s.1.k8s_version ∧
    (stageTaints v s).1.update_strategy = s.1.update_strategy := by
  rcases v with _ | v
  · simp [stageTaints]
  · simp only [stageTaints]
    by_cases h : s.1.taints ≠ v
    · rw [if_pos h]
      exact ⟨rfl, rfl, rfl, rfl, rfl⟩
    · rw [if_neg h]
      exact ⟨rfl, rfl, rfl, rfl, rfl⟩

theorem stageLabels_frame (v : Option PoolLabels)
    (s : NodePool × List PoolAction) :
    (stageLabels v s).1.count = s.1.count ∧
    (stageLabels v s).1.autoscaler = s.1.autoscaler ∧
    (stageLabels v s).1.taints = s.1.taints ∧
    (stageLabels v s).1.k8s_version = s.1.k8s_version ∧
    (stageLabels v s).1.update_strategy = s.1.update_strategy := by
  rcases v with _ | v
  · simp [stageLabels]
  · simp only [stageLabels]
    by_cases h : s.1.labels ≠ v
    · rw [if_pos h]
      exact ⟨rfl, rfl, rfl, rfl, rfl⟩
    · rw [if_neg h]
      exact ⟨rfl, rfl, rfl, rfl, rfl⟩

theorem stageVersion_frame (v : Option String) (s : NodePool × List PoolAction) :
    (stageVersion v s).1.count = s.1.count ∧
    (stageVersion v s).1.autoscaler = s.1.autoscaler ∧
    (stageVersion v s).1.taints = s.1.taints ∧
    (stageVersion v s).1.labels = s.1.labels ∧
    (stageVersion v s).1.update_strategy = s.1.update_strategy := by
  rcases v with _ | v
  · simp [stageVersion]
  · simp only [stageVersion]
    by_cases h : s.1.k8s_version ≠ v
    · rw [if_pos h]
      exact ⟨rfl, rfl, rfl, rfl, rfl⟩
    · rw [if_neg h]
      exact ⟨rfl, rfl, rfl, rfl, rfl⟩

theorem stageStrategy_frame (v : Option String)
    (s : NodePool × List PoolAction) :
    (stageStrategy v s).1.count = s.1.count ∧
    (stageStrategy v s).1.autoscaler = s.1.autoscaler ∧
    (stageStrategy v s).1.taints = s.1.taints ∧
    (stageStrategy v s).1.labels = s.1.labels ∧
    (stageStrategy v s).1.k8s_version = s.1.k8s_version := by
  rcases v with _ | v
  · simp [stageStrategy]
  · simp only [stageStrategy]
    by_cases h : s.1.update_strategy ≠ v
    · rw [if_pos h]
      exact ⟨rfl, rfl, rfl, rfl, rfl⟩
    · rw [if_neg h]
      exact ⟨rfl, rfl, rfl, rfl, rfl⟩

theorem stageCount_sets (c : Nat) (s : NodePool × List PoolAction) :
    (stageCount c s).1.count = c := by
  unfold stageCount
  split
  · rfl
  · rename_i h
    simpa using h

theorem stageAutoscaler_sets (v : Autoscaler) (s : NodePool × List PoolAction) :
    (stageAutoscaler (some v) s).1.autoscaler = v := by
  simp only [stageAutoscaler]
  split
  · rfl
  · rename_i h
    simpa using h

theorem stageTaints_sets (v : Taints) (s : NodePool × List PoolAction) :
    (stageTaints (some v) s).1.taints = v := by
  simp only [stageTaints]
  split
  · rfl
  · rename_i h
    simpa using h

theorem stageLabels_sets (v : PoolLabels) (s : NodePool × List PoolAction) :
    (stageLabels (some v) s).1.labels = v := by
  simp only [stageLabels]
  split
  · rfl
  · rename_i h
    simpa using h

theorem stageVersion_sets (v : String) (s : NodePool × List PoolAction) :
    (stageVersion (some v) s).1.k8s_version = v := by
  simp only [stageVersion]
  split
  · rfl
  · rename_i h
    simpa using h

theorem stageStrategy_sets (v : String) (s : NodePool × List PoolAction) :
    (stageStrategy (some v) s).1.update_strategy = v := by
  simp only [stageStrategy]
  split
  · rfl
  · rename_i h
    simpa using h

/-- C4 (amended): in `_update_pool`, whenever at least one field is
staged, exactly one write is issued and that single write carries every
staged field - the written pool agrees with every caller-supplied field. -/
theorem update_pool_single_combined_write (params : PoolParams)
    (pool : NodePool) (h : (update_pool params pool).2.2 ≠ []) :
    (update_pool params pool).2.1 = 1 ∧
    (update_pool params pool).1.count = params.count ∧
    (∀ v, params.autoscaler = some v →
      (update_pool params pool).1.autoscaler = v) ∧
    (∀ v, params.taints = some v → (update_pool params pool).1.taints = v) ∧
    (∀ v, params.labels = some v → (update_pool params pool).1.labels = v) ∧
    (∀ v, params.k8s_version = some v →
      (update_pool params pool).1.k8s_version = v) ∧
    (∀ v, params.update_strategy = some v →
      (update_pool params pool).1.update_strategy = v) := by
  have hfst : (update_pool params pool).1 = (stagePool params pool).1 := rfl
  have hacts : (update_pool params pool).2.2 = (stagePool params pool).2 := rfl
  have hsave : (update_pool params pool).2.1
      = if (stagePool params pool).2.isEmpty then 0 else 1 := rfl
  refine ⟨?_, ?_, ?_, ?_, ?_, ?_, ?_⟩
  · rw [hsave, if_neg]
    rw [hacts] at h
    simpa [List.isEmpty_iff] using h
  · rw [hfst]
    unfold stagePool
    rw [(stageStrategy_frame _ _).1, (stageVersion_frame _ _).1,
      (stageLabels_frame _ _).1, (stageTaints_frame _ _).1,
      (stageAutoscaler_frame _ _).1, stageCount_sets]
  · intro v hv
    rw [hfst]
    unfold stagePool
    rw [(stageStrategy_frame _ _).2.1, (stageVersion_frame _ _).2.1,
      (stageLabels_frame _ _).2.1, (stageTaints_frame _ _).2.1, hv,
      stageAutoscaler_sets]
  · intro v hv
    rw [hfst]
    unfold stagePool
    rw [(stageStrategy_frame _ _).2.2.1, (stageVersion_frame _ _).2.2.1,
      (stageLabels_frame _ _).2.2.1, hv, stageTaints_sets]
  · intro v hv
    rw [hfst]
    unfold stagePool
    rw [(stageStrategy_frame _ _).2.2.2.1, (stageVersion_frame _ _).2.2.2.1,
      hv, stageLabels_sets]
  · intro v hv
    rw [hfst]
    unfold stagePool
    rw [(stageStrategy_frame _ _).2.2.2.2, hv, stageVersion_sets]
  · intro v hv
    rw [hfst]
    unfold stagePool
    rw [hv, stageStrategy_sets]

/-- C4 amended-theorem witness: two differing fields, one write carrying
both. -/
theorem update_pool_single_combined_write_witness :
    (update_pool
      { count := 5, autoscaler := some [("max", 9)], taints := none,
        labels := none, k8s_version := none, update_strategy := none }
      { count := 3, autoscaler := [("max", 4)], taints := [], labels := [],
        k8s_version := "1.29", update_strategy := "rolling_update" }).2.2 ≠ [] ∧
    (update_pool
      { count := 5, autoscaler := some [("max", 9)], taints := none,
        labels := none, k8s_version := none, update_strategy := none }
      { count := 3, autoscaler := [("max", 4)], taints := [], labels := [],
        k8s_version := "1.29", update_strategy := "rolling_update" }).2.1 = 1 := by
  refine ⟨by decide, ?_⟩
  exact (update_pool_single_combined_write _ _ (by decide)).1

/-- C7: when every caller-supplied field equals the remote pool's value,
`_update_pool` issues no write and records no action. -/
theorem update_pool_noop (params : PoolParams) (pool : NodePool)
    (h1 : params.count = pool.count)
    (h2 : params.autoscaler = none ∨ params.autoscaler = some pool.autoscaler)
    (h3 : params.taints = none ∨ params.taints = some pool.taints)
    (h4 : params.labels = none ∨ params.labels = some pool.labels)
    (h5 : params.k8s_version = none ∨ params.k8s_version = some pool.k8s_version)
    (h6 : params.update_strategy = none ∨
      params.update_strategy = some pool.update_strategy) :
    update_pool params pool = (pool, 0, []) := by
  have hs : stagePool params pool = (pool, []) := by
    unfold stagePool
    rcases h2 with h2 | h2 <;> rcases h3 with h3 | h3 <;>
      rcases h4 with h4 | h4 <;> rcases h5 with h5 | h5 <;>
      rcases h6 with h6 | h6 <;>
      simp [stageCount, stageAutoscaler, stageTaints, stageLabels,
        stageVersion, stageStrategy, h1, h2, h3, h4, h5, h6]
  unfold update_pool
  rw [hs]
  rfl

/-- C7 witness: a fully converged pool produces zero writes and an empty
ledger. -/
theorem update_pool_noop_witness :
    update_pool
      { count := 3, autoscaler := some [("max", 4)], taints := none,
        labels := some [("env", "prod")], k8s_version := some "1.29",
        update_strategy := none }
      { count := 3, autoscaler := [("max", 4)], taints := [],
        labels := [("env", "prod")], k8s_version := "1.29",
        update_strategy := "rolling_update" }
      = ({ count := 3,
           autoscaler := [("max", 4)],
           taints := [],
           labels := [("env", "prod")],
           k8s_version := "1.29",
           update_strategy := "rolling_update" }, 0, []) :=
  update_pool_noop _ _ rfl (Or.inr rfl) (Or.inl rfl) (Or.inr rfl)
    (Or.inr rfl) (Or.inl rfl)

/-! ### LKE cluster matched-pool update pass (lke_cluster.py)

In `_update_cluster`'s first matching pass (a desired pool whose `count`
and `type` both equal an existing pool's), each differing attribute -
autoscaler, taints, labels - is written with its own `current_pool.save()`
call. -/

structure ClusterPool where
  id : Nat
  count : Nat
  ptype : String
  autoscaler : Autoscaler
  taints : Taints
  labels : PoolLabels
deriving DecidableEq

structure ClusterPoolParams where
  count : Nat
  ptype : String
  autoscaler : Option Autoscaler
  taints : Option Taints
  labels : Option PoolLabels
deriving DecidableEq

/-- Body of the exact-match branch of `_update_cluster` (lke_cluster.py,
first pass): one `save()` per changed attribute.  Returns the updated
pool and the number of `save()` writes issued. -/
def lkeMatchedPoolUpdate (p : ClusterPoolParams) (cur : ClusterPool) :
    ClusterPool × Nat :=
  let s1 : ClusterPool × Nat :=
    match p.autoscaler with
    | some v => if cur.autoscaler ≠ v then ({ cur with autoscaler := v }, 1)
      else (cur, 0)
    | none => (cur, 0)
  let s2 : ClusterPool × Nat :=
    match p.taints with
    | some v => if s1.1.taints ≠ v then ({ s1.1 with taints := v }, s1.2 + 1)
      else s1
    | none => s1
  match p.labels with
  | some v => if s2.1.labels ≠ v then ({ s2.1 with labels := v }, s2.2 + 1)
    else s2
  | none => s2

/-- C4 counterexample: an exact-matched LKE node pool (equal count and
type) with both its autoscaler and its taints differing receives two
writes - one per changed field - not one combined write. -/
theorem lke_cluster_per_field_saves_cex :
    (⟨3, "g6-standard-1", some [("max", 5)], some [("key", "value")], none⟩ :
      ClusterPoolParams).count
      = (⟨10, 3, "g6-standard-1", [("max", 3)], [], []⟩ : ClusterPool).count ∧
    (⟨3, "g6-standard-1", some [("max", 5)], some [("key", "value")], none⟩ :
      ClusterPoolParams).ptype
      = (⟨10, 3, "g6-standard-1", [("max", 3)], [], []⟩ : ClusterPool).ptype ∧
    (⟨3, "g6-standard-1", some [("max", 5)], some [("key", "value")], none⟩ :
      ClusterPoolParams).autoscaler
      ≠ some (⟨10, 3, "g6-standard-1", [("max", 3)], [], []⟩ :
        ClusterPool).autoscaler ∧
    (lkeMatchedPoolUpdate
      ⟨3, "g6-standard-1", some [("max", 5)], some [("key", "value")], none⟩
      ⟨10, 3, "g6-standard-1", [("max", 3)], [], []⟩).2 = 2 ∧
    (lkeMatchedPoolUpdate
      ⟨3, "g6-standard-1", some [("max", 5)], some [("key", "value")], none⟩
      ⟨10, 3, "g6-standard-1", [("max", 3)], [], []⟩).2 ≠ 1 := by
  decide

/-! ### Convergence polling under a shared timeout budget

Time is a natural-number wall clock.  A predicate "needing k seconds"
holds from clock value `readyAt` onward.
-/

inductive PollOutcome where
  | Converged
  | TimedOut
deriving DecidableEq

/-- Modelled from the spec (§5 and data model PollState): `TimeoutContext`
(module_utils linode_common, absent from src/) fixes a wall-clock deadline
when the run starts; `seconds_remaining` is the budget left at the
current time.  Every blocking call in the run (e.g. the successive waits
of `DatabaseMySQLV2Module._create` and the kubeconfig/dashboard polls of
lke_cluster.py) is passed `self._timeout_ctx.seconds_remaining`. -/
structure TimeoutCtx where
  deadline : Nat
deriving DecidableEq

def secondsRemaining (ctx : TimeoutCtx) (now : Nat) : Nat :=
  ctx.deadline - now

/-- Modelled from the spec (§4.2): `poll_condition` (module_utils
linode_helper, absent from src/) evaluates the predicate immediately,
sleeps `step` seconds between evaluations, and reports `TimedOut` once
the supplied budget is exhausted without the predicate holding.  Fuel
bounds the recursion; the wrapper supplies enough for the whole budget.
Returns the outcome and the clock value at return. -/
def pollFrom (readyAt step : Nat) :
    Nat → Nat → Nat → PollOutcome × Nat
  | 0, now, _ => (.TimedOut, now)
  | fuel + 1, now, deadline =>
    if readyAt ≤ now then (.Converged, now)
    else if deadline ≤ now then (.TimedOut, now)
    else pollFrom readyAt step fuel (now + step) deadline

def poll_condition (readyAt step timeout now : Nat) : PollOutcome × Nat :=
  pollFrom readyAt step (timeout + 1) now (now + timeout)

/-- The sequential blocking waits of one reconciliation run
(database_mysql_v2.py `_create`, lke_cluster.py `_populate_*_poll`): two
polls in sequence, each receiving only `seconds_remaining` of the single
context created at run start (time 0), the second one's predicate needing
a further `need2` seconds after the first returns. -/
def runTwoPolls (budget need1 need2 step : Nat) :
    PollOutcome × PollOutcome :=
  let ctx : TimeoutCtx := { deadline := budget }
  let r1 := poll_condition need1 step (secondsRemaining ctx 0) 0
  let r2 := poll_condition (r1.2 + need2) step
    (secondsRemaining ctx r1.2) r1.2
  (r1.1, r2.1)

end Spec2Proof

namespace Spec2Proof

theorem pollFrom_converges :
    ∀ (fuel now readyAt deadline : Nat), now ≤ readyAt →
      readyAt ≤ deadline → readyAt - now < fuel →
      pollFrom readyAt 1 fuel now deadline = (.Converged, readyAt)
  | 0, now, readyAt, _, _, _, hf => absurd hf (by simp)
  | fuel + 1, now, readyAt, deadline, hnr, hrd, hf => by
    unfold pollFrom
    by_cases hr : readyAt ≤ now
    · rw [if_pos hr, Nat.le_antisymm hnr hr]
    · rw [if_neg hr]
      have hlt : now < readyAt := Nat.lt_of_not_le hr
      rw [if_neg (by omega)]
      exact pollFrom_converges fuel (now + 1) readyAt deadline
        hlt hrd (by omega)

theorem pollFrom_times_out :
    ∀ (fuel now readyAt deadline : Nat), now ≤ deadline →
      deadline < readyAt →
      (pollFrom readyAt 1 fuel now deadline).1 = .TimedOut
  | 0, _, _, _, _, _ => rfl
  | fuel + 1, now, readyAt, deadline, hnd, hdr => by
    unfold pollFrom
    rw [if_neg (by omega)]
    by_cases hd : deadline ≤ now
    · rw [if_pos hd]
    · rw [if_neg hd]
      exact pollFrom_times_out fuel (now + 1) readyAt deadline
        (by omega) hdr

/-- C6: the wall-clock budget fixed at run start is shared: each poll
receives only the remaining budget, so a first poll that converges within
budget leaves the second poll only the remainder, and a second predicate
needing more than that remainder times out instead of getting a fresh
allowance. -/
theorem shared_timeout_budget (budget need1 need2 : Nat)
    (h1 : need1 ≤ budget) (h2 : budget < need1 + need2) :
    runTwoPolls budget need1 need2 1 = (.Converged, .TimedOut) := by
  have hr1 : poll_condition need1 1 (secondsRemaining ⟨budget⟩ 0) 0
      = (.Converged, need1) := by
    unfold poll_condition secondsRemaining
    simp only [Nat.sub_zero, Nat.zero_add]
    exact pollFrom_converges (budget + 1) 0 need1 budget
      (Nat.zero_le _) h1 (by omega)
  have hr2 : (poll_condition (need1 + need2) 1
      (secondsRemaining ⟨budget⟩ need1) need1).1 = .TimedOut := by
    unfold poll_condition secondsRemaining
    rw [Nat.add_sub_cancel' h1]
    exact pollFrom_times_out (budget - need1 + 1) need1 (need1 + need2)
      budget h1 h2
  unfold runTwoPolls
  simp only [hr1]
  rw [hr2]

/-- C6 witness: budget 10, two polls needing 6 seconds each - the second
reports TimedOut. -/
theorem shared_timeout_budget_witness :
    runTwoPolls 10 6 6 1 = (.Converged, .TimedOut) :=
  shared_timeout_budget 10 6 6 (by decide) (by decide)

/-! ### Poll predicate error handling (lke_cluster.py) -/

structure ApiErr where
  status : Nat
deriving DecidableEq

/-- The `condition` closure of `_populate_kubeconfig_poll`
(lke_cluster.py): a successful fetch stores the kubeconfig and returns
true; an ApiError with status 503 means "not yet ready" and returns
false; any other error is re-raised.  (`_populate_dashboard_url_poll` is
the identical pattern.) -/
def kubeconfigCondition (fetch : Except ApiErr String) :
    Except ApiErr Bool :=
  match fetch with
  | .ok _ => .ok true
  | .error e => if e.status == 503 then .ok false else .error e

/-- Modelled from the spec (§4.2): the poll loop re-evaluates the
predicate until it returns true; an error raised while evaluating the
predicate propagates immediately and is not retried; the budget runs out
when the (finite) sequence of fetch outcomes is exhausted.  Returns the
final result and the number of evaluations performed. -/
def pollPredicate : List (Except ApiErr Bool) → Except ApiErr Bool × Nat
  | [] => (.ok false, 0)
  | c :: rest =>
    match c with
    | .error e => (.error e, 1)
    | .ok true => (.ok true, 1)
    | .ok false =>
      let r := pollPredicate rest
      (r.1, r.2 + 1)

def pollKubeconfig (fetches : List (Except ApiErr String)) :
    Except ApiErr Bool × Nat :=
  pollPredicate (fetches.map kubeconfigCondition)

def is503 (f : Except ApiErr String) : Bool :=
  match f with
  | .error e => e.status == 503
  | .ok _ => false

/-- C8: a 503 ApiError is converted to a false predicate result and
polling continues, while any other error propagates out of the poll the
moment it is evaluated - the poll performs no further evaluation after
it. -/
theorem poll_error_propagates (pre post : List (Except ApiErr String))
    (e : ApiErr) (hpre : ∀ f ∈ pre, is503 f = true) (he : e.status ≠ 503) :
    pollKubeconfig (pre ++ .error e :: post) = (.error e, pre.length + 1) ∧
    (∀ e0 : ApiErr, e0.status = 503 →
      kubeconfigCondition (.error e0) = .ok false) ∧
    kubeconfigCondition (.error e) = .error e := by
  have hke : kubeconfigCondition (.error e) = .error e := by
    simp only [kubeconfigCondition]
    rw [if_neg (by simpa using he)]
  refine ⟨?_, ?_, hke⟩
  · induction pre with
    | nil =>
      unfold pollKubeconfig
      rw [List.nil_append, List.map_cons, hke]
      rfl
    | cons f pre ih =>
      have hf : kubeconfigCondition f = .ok false := by
        have h503 := hpre f (List.mem_cons_self f pre)
        rcases f with e0 | v
        · simp only [is503] at h503
          simp only [kubeconfigCondition]
          rw [if_pos h503]
        · simp [is503] at h503
      have ih2 := ih (fun g hg => hpre g (List.mem_cons_of_mem f hg))
      unfold pollKubeconfig at ih2 ⊢
      rw [List.cons_append, List.map_cons, hf]
      unfold pollPredicate
      rw [ih2]
      simp [List.length_cons]
  · intro e0 h503
    simp only [kubeconfigCondition]
    rw [if_pos (by simpa using h503)]

/-- C8 witness: one not-yet-ready 503, then a 500 error: the poll stops
at the second evaluation and surfaces the 500. -/
theorem poll_error_propagates_witness :
    (∀ f ∈ [Except.error (⟨503⟩ : ApiErr)], is503 f = true) ∧
    ((⟨500⟩ : ApiErr).status ≠ 503) ∧
    pollKubeconfig [.error ⟨503⟩, .error ⟨500⟩, .ok "kubeconfig"]
      = (.error ⟨500⟩, 2) := by
  refine ⟨by decide, by decide, ?_⟩
  exact (poll_error_propagates [.error ⟨503⟩] [.ok "kubeconfig"] ⟨500⟩
    (by decide) (by decide)).1

end Spec2Proof
